import Mathlib

/-!
Sobel edge detection: MPI/OpenMP and OpenACC variants

A shallow embedding of `MPIOpenMPSobel.c` and `OpenACCSobel.c`.

* An `unsigned char *` buffer is a `List Nat`; a sample is a natural number.
* `int` locals (`gx`, `gy`, `sum_x`, `sum_y`, the loop offsets `i`, `j`) are `Int`.
  With 8-bit samples `|gx|, |gy| ≤ 1020`, so `gx*gx + gy*gy ≤ 2080800` stays far
  below `2^31` (see `sobelAccum_sq_le`); no wrap-around is modelled. Dimensions
  are natural numbers, taken small enough for `width * height` to fit an `int`.
* `malloc` returns a block of indeterminate contents: the bytes found in a fresh
  block are a parameter `heap : Nat → Nat` (offset to byte).
* The `omp parallel for` / `acc parallel loop` iterations write disjoint cells and
  read only the input, so they are run in source order.
* The OpenACC data region `copyout(out_data[0:width*height])` is modelled in both
  of its executions: on the host (or with shared memory) the loop writes
  `out_data` itself; on a discrete-memory accelerator it writes a device array of
  indeterminate initial content, which replaces `out_data[0:width*height]` when
  the region ends.
* The collectives follow MPI's block layout: `MPI_Scatter` hands rank `r` the block
  starting at `r * sendcount`, `MPI_Gather` stores rank `r`'s block at
  `r * recvcount` of the receive buffer.
* In `main` of `MPIOpenMPSobel.c` the pointer `input_image` is assigned on rank 0
  only and dereferenced by every rank, so a run with two or more ranks has
  undefined behaviour; `main` below says so (`RunResult.undefined`).
-/

namespace Sobel

/-! ## Data model -/

/-- The struct `Image` of both source files. -/
structure Image where
  data : List Nat
  Width : Nat
  Height : Nat
deriving DecidableEq

/-- The sample of an image at row `y`, column `x` (`none` outside the buffer). -/
def Image.pixel (img : Image) (y x : Nat) : Option Nat :=
  img.data[y * img.Width + x]?

/-- The constant `THRESH` (defined as 100) of `MPIOpenMPSobel.c`. -/
def THRESH : Int := 100

/-- Function `CreateNewImage`: a `width * height` block from `malloc`, whose
contents are whatever `heap` holds; nothing is written to it. -/
def CreateNewImage (heap : Nat → Nat) (width height : Nat) : Image :=
  { data := (List.range (width * height)).map heap, Width := width, Height := height }

/-- Table `sobel_x` of `SobelEdgeDetection`. -/
def sobel_x : List (List Int) := [[-1, 0, 1], [-2, 0, 2], [-1, 0, 1]]

/-- Table `sobel_y` of `SobelEdgeDetection`. -/
def sobel_y : List (List Int) := [[-1, -2, -1], [0, 0, 0], [1, 2, 1]]

/-- Table `dx` of `sobel_edge_detection_openacc`. -/
def dx : List (List Int) := [[-1, 0, 1], [-2, 0, 2], [-1, 0, 1]]

/-- Table `dy` of `sobel_edge_detection_openacc`. -/
def dy : List (List Int) := [[1, 2, 1], [0, 0, 0], [-1, -2, -1]]

/-- Table lookup `k[r][c]` for an `int[3][3]`. -/
def coef (k : List (List Int)) (r c : Int) : Int :=
  (k.getD r.toNat []).getD c.toNat 0

/-- Read `data[k]` and promote it to `int`. -/
def readPixel (data : List Nat) (k : Int) : Int :=
  ((data.getD k.toNat 0 : Nat) : Int)

/-- The values taken by `for (int j = -1; j <= 1; ++j)`. -/
def offsets : List Int := [-1, 0, 1]

/-! ## The stencil loops -/

/-- The two inner loops of `SobelEdgeDetection`: the pair `(gx, gy)` accumulated
at pixel `(y, x)`. -/
def sobelAccum (grayData : List Nat) (width y x : Nat) : Int × Int :=
  offsets.foldl (fun acc j =>
    offsets.foldl (fun acc i =>
      let pixel_value := readPixel grayData (((y : Int) + j) * (width : Int) + ((x : Int) + i))
      (acc.1 + pixel_value * coef sobel_x (j + 1) (i + 1),
       acc.2 + pixel_value * coef sobel_y (j + 1) (i + 1))) acc) (0, 0)

/-- The value stored at `result->data[y * width + x]` by `SobelEdgeDetection`. -/
def sobelPixel (grayData : List Nat) (width y x : Nat) : Nat :=
  let g := sobelAccum grayData width y x
  if g.1 * g.1 + g.2 * g.2 < THRESH * THRESH then 0 else 255

/-- The two inner loops of `sobel_edge_detection_openacc`: `(sum_x, sum_y)` at
pixel `(row, col)`. Here `i` is the row offset and `j` the column offset. -/
def accAccum (in_data : List Nat) (width row col : Nat) : Int × Int :=
  offsets.foldl (fun acc i =>
    offsets.foldl (fun acc j =>
      let pixel := readPixel in_data (((row : Int) + i) * (width : Int) + ((col : Int) + j))
      (acc.1 + pixel * coef dx (i + 1) (j + 1),
       acc.2 + pixel * coef dy (i + 1) (j + 1))) acc) (0, 0)

/-- The value stored at `out_data[row * width + col]` by the OpenACC variant.
The C expression `(int)sqrt(n)` is the integer square root: the IEEE square root
is correctly rounded and `n ≤ 2080800`, so truncating it gives `⌊√n⌋` exactly
(`Real.nat_floor_real_sqrt_eq_nat_sqrt`). The final `% 256` is the cast to
`unsigned char`. -/
def accPixel (in_data : List Nat) (width row col : Nat) : Nat :=
  let s := accAccum in_data width row col
  let magnitude := Nat.sqrt (s.1 * s.1 + s.2 * s.2).toNat
  let magnitude := if magnitude > 255 then 255 else magnitude
  magnitude % 256

/-- The loop nest shared by both variants:
`for (y = 1; y < height - 1; ++y) for (x = 1; x < width - 1; ++x) out[y * width + x] = pix y x`. -/
def interiorLoop (pix : Nat → Nat → Nat) (width height : Nat) (out : List Nat) : List Nat :=
  (List.range' 1 (height - 2)).foldl (fun out y =>
    (List.range' 1 (width - 2)).foldl (fun out x =>
      out.set (y * width + x) (pix y x)) out) out

/-- Function `SobelEdgeDetection(grayData, width, height)`; `heap` is the content
of the block `CreateNewImage` obtains. -/
def SobelEdgeDetection (heap : Nat → Nat) (grayData : List Nat) (width height : Nat) : Image :=
  let result := CreateNewImage heap width height
  { result with data := interiorLoop (sobelPixel grayData width) width height result.data }

/-- Function `sobel_edge_detection_openacc(input_image, output_image)`; returns
the output image after the call. The loop nest runs inside
`acc data copyin(in_data[0:width*height]) copyout(out_data[0:width*height])`:

* `device = none`: the region runs on the host (no accelerator, or memory shared
  with it) and the loop writes `out_data` directly;
* `device = some dev`: the region runs on a discrete-memory accelerator. On entry
  `copyout` allocates a device array without copying the host data, so its
  content is the indeterminate `dev`; the loop writes that array, and on exit
  all `width * height` elements are copied over `out_data[0:width*height]`. -/
def sobel_edge_detection_openacc (device : Option (Nat → Nat))
    (input_image output_image : Image) : Image :=
  let width := input_image.Width
  let height := input_image.Height
  let in_data := input_image.data
  let out_data := output_image.data
  match device with
  | none =>
    { output_image with data := interiorLoop (accPixel in_data width) width height out_data }
  | some dev =>
    let device_out := (List.range (width * height)).map dev
    let device_out := interiorLoop (accPixel in_data width) width height device_out
    { output_image with data := device_out ++ out_data.drop (width * height) }

/-! ## The distributed pipeline of `main` (`MPIOpenMPSobel.c`) -/

/-- The ways the pipeline can terminate abnormally. The source only ever exits
on a failed allocation (and, in `LoadImage`, on an unreadable or unsupported
file); `InvalidTopology` and `IncompletePartitionSet` are the two further
errors the specification names. -/
inductive PipelineError where
  | AllocationFailure
  | UnsupportedFormat
  | InvalidTopology
  | IncompletePartitionSet
deriving DecidableEq

/-- Line `int chunk_height = height / num_procs;`. -/
def chunk_height (height num_procs : Nat) : Nat := height / num_procs

/-- Line `int chunk_size = width * chunk_height;`. -/
def chunk_size (width height num_procs : Nat) : Nat := width * chunk_height height num_procs

/-- The block `MPI_Scatter(sendbuf, sendcount, ..)` delivers to `rank`:
`sendcount` elements starting at `rank * sendcount`. -/
def MPI_Scatter (sendbuf : List Nat) (sendcount rank : Nat) : List Nat :=
  (sendbuf.drop (rank * sendcount)).take sendcount

/-- The receive buffer at the root after `MPI_Gather(sendbuf, count, .., recvbuf, count, ..)`:
element `t` of the block sent by `rank` is stored at `rank * count + t`. -/
def MPI_Gather (sendbufs : List (List Nat)) (count : Nat) (recvbuf : List Nat) : List Nat :=
  (List.range sendbufs.length).foldl (fun recv rank =>
    (List.range count).foldl (fun recv t =>
      recv.set (rank * count + t) ((sendbufs.getD rank []).getD t 0)) recv) recvbuf

/-- The rows of the source image that worker `i` receives from the scatter:
elements `[i * chunk_size, (i + 1) * chunk_size)` are rows
`[i * chunk_height, (i + 1) * chunk_height)`. -/
def ownsRow (height num_procs i r : Nat) : Prop :=
  i * chunk_height height num_procs ≤ r ∧ r < (i + 1) * chunk_height height num_procs

instance (height num_procs i r : Nat) : Decidable (ownsRow height num_procs i r) := by
  unfold ownsRow
  infer_instance

/-- The blockwise construction of the distributed run: for each rank, the result
of `SobelEdgeDetection` on the block of `chunk_size` samples the scatter assigns
to it, computed into a fresh block with contents `heap rank`. These are lines
159-174 of `main` as run by a rank that holds `width` and `height`. -/
def workerEdges (input_image : Image) (num_procs : Nat) (heap : Nat → Nat → Nat) : List Image :=
  (List.range num_procs).map (fun rank =>
    let local_data := MPI_Scatter input_image.data
      (chunk_size input_image.Width input_image.Height num_procs) rank
    SobelEdgeDetection (heap rank) local_data input_image.Width
      (chunk_height input_image.Height num_procs))

/-- The worker results stored block after block, in rank order, in a fresh
`width * height` block with contents `rootHeap` (lines 177-190 of `main`): the
image the distributed computation yields when every rank holds `width` and
`height`. The source itself reaches this with defined behaviour only for
`num_procs = 1`; see `main`. -/
def gatheredImage (input_image : Image) (num_procs : Nat) (heap : Nat → Nat → Nat)
    (rootHeap : Nat → Nat) : Image :=
  let width := input_image.Width
  let height := input_image.Height
  let edges := workerEdges input_image num_procs heap
  let gathered_data := MPI_Gather (edges.map Image.data) (chunk_size width height num_procs)
    ((List.range (width * height)).map rootHeap)
  { data := gathered_data, Width := width, Height := height }

/-- How a run of the MPI job ends: rank 0 saves `output_image`, or a rank calls
`exit(EXIT_FAILURE)`, or the behaviour of the program is undefined. -/
inductive RunResult where
  | ok (output_image : Image)
  | error (e : PipelineError)
  | undefined
deriving DecidableEq

/-- Function `main` of `MPIOpenMPSobel.c` from the loaded image on, as the outcome
of the whole job with `num_procs` ranks.

`Image *input_image;` is assigned only under `if (rank == 0)` (line 149), yet
every rank evaluates `&input_image->Width`, `&input_image->Height`,
`input_image->Width` and `input_image->Height` (lines 153-157). On every rank
other than 0 that dereferences a pointer that was never assigned, which is
undefined behaviour; so is the division `height / num_procs` for
`num_procs = 0`, which MPI never produces. Only a job of exactly one rank has
defined behaviour: it then runs lines 159-190 on rank 0. `mallocOk` says whether
the allocations succeed; a failed one prints a message and calls
`exit(EXIT_FAILURE)`. There is no other exit, and no check of `num_procs`
against `height`. -/
def main (input_image : Image) (num_procs : Nat) (mallocOk : Bool) (heap : Nat → Nat → Nat)
    (rootHeap : Nat → Nat) : RunResult :=
  if num_procs = 1 then
    if mallocOk then .ok (gatheredImage input_image num_procs heap rootHeap)
    else .error .AllocationFailure
  else .undefined

/-! ## The stencil as the specification words it -/

/-- Horizontal kernel of the specification. -/
def Hx : List (List Int) := [[-1, 0, 1], [-2, 0, 2], [-1, 0, 1]]

/-- Vertical kernel of the specification. -/
def Hy : List (List Int) := [[-1, -2, -1], [0, 0, 0], [1, 2, 1]]

/-- The sample at row `r`, column `c` of a row-major grid of the given width;
`0` for a negative coordinate. -/
def sample (grid : List Nat) (width : Nat) (r c : Int) : Int :=
  if 0 ≤ r ∧ 0 ≤ c then ((grid.getD (r.toNat * width + c.toNat) 0 : Nat) : Int) else 0

/-- The specification's `gx`: the sum over `j, i ∈ {-1, 0, 1}` of
`sample (y + j, x + i) * Hx[j+1][i+1]`. -/
def gxSpec (grid : List Nat) (width y x : Nat) : Int :=
  ∑ j ∈ ({-1, 0, 1} : Finset Int), ∑ i ∈ ({-1, 0, 1} : Finset Int),
    sample grid width (y + j) (x + i) * coef Hx (j + 1) (i + 1)

/-- The specification's `gy`, with the vertical kernel. -/
def gySpec (grid : List Nat) (width y x : Nat) : Int :=
  ∑ j ∈ ({-1, 0, 1} : Finset Int), ∑ i ∈ ({-1, 0, 1} : Finset Int),
    sample grid width (y + j) (x + i) * coef Hy (j + 1) (i + 1)

/-- Shorthand: the sample at natural coordinates, as an `Int`. -/
def px (grid : List Nat) (width r c : Nat) : Int :=
  ((grid.getD (r * width + c) 0 : Nat) : Int)

/-- The uniform image: every sample is `c`. -/
def uniformImage (width height c : Nat) : List Nat :=
  List.replicate (width * height) c

/-- The vertical step-edge image: sample `(y, x)` is `0` for `x < s` and `255`
for `x ≥ s`. -/
def stepImage (width height s : Nat) : List Nat :=
  (List.range (width * height)).map (fun k => if k % width < s then 0 else 255)

/-! ## Loop lemmas -/

theorem index_div (width y x : Nat) (hx : x < width) : (y * width + x) / width = y := by
  have hw : 0 < width := by omega
  rw [Nat.add_comm, Nat.add_mul_div_right _ _ hw, Nat.div_eq_of_lt hx, Nat.zero_add]

theorem index_mod (width y x : Nat) (hx : x < width) : (y * width + x) % width = x := by
  rw [Nat.add_comm, Nat.add_mul_mod_self_right, Nat.mod_eq_of_lt hx]

theorem index_eq_iff (width y x k : Nat) (hx : x < width) :
    y * width + x = k ↔ k / width = y ∧ k % width = x := by
  constructor
  · rintro rfl
    exact ⟨index_div width y x hx, index_mod width y x hx⟩
  · rintro ⟨rfl, rfl⟩
    rw [Nat.mul_comm]
    exact Nat.div_add_mod k width

theorem index_lt (width height y x : Nat) (hy : y < height) (hx : x < width) :
    y * width + x < width * height := by
  calc y * width + x < y * width + width := by omega
    _ = (y + 1) * width := by ring
    _ ≤ height * width := Nat.mul_le_mul_right _ hy
    _ = width * height := Nat.mul_comm _ _

/-- One row of the loop nest: cell `k` is overwritten exactly when it lies in row
`y` at a visited column. -/
theorem rowLoop_getElem? (pix : Nat → Nat → Nat) (width y : Nat) (xs : List Nat)
    (hxs : ∀ x ∈ xs, x < width) (out : List Nat) (k : Nat) :
    (xs.foldl (fun out x => out.set (y * width + x) (pix y x)) out)[k]? =
      if k < out.length ∧ k / width = y ∧ k % width ∈ xs then some (pix y (k % width))
      else out[k]? := by
  induction xs generalizing out with
  | nil => simp
  | cons a t ih =>
    have ha : a < width := hxs a (List.mem_cons_self _ _)
    rw [List.foldl_cons, ih (fun x hx => hxs x (List.mem_cons_of_mem _ hx))]
    simp only [List.length_set, List.mem_cons]
    by_cases hk : k < out.length
    · by_cases ht : k / width = y ∧ k % width ∈ t
      · simp [hk, ht]
      · by_cases hka : y * width + a = k
        · have h2 := (index_eq_iff width y a k ha).1 hka
          have h3 : ¬ (k / width = y ∧ k % width ∈ t) := ht
          rw [if_neg (fun h => h3 h.2), if_pos ⟨hk, h2.1, Or.inl h2.2⟩, hka,
            List.getElem?_set_self hk, h2.2]
        · have h3 : ¬ (k / width = y ∧ (k % width = a ∨ k % width ∈ t)) := by
            rintro ⟨h1, h2 | h2⟩
            · exact hka ((index_eq_iff width y a k ha).2 ⟨h1, h2⟩)
            · exact ht ⟨h1, h2⟩
          rw [if_neg (fun h => ht h.2), if_neg (fun h => h3 h.2), List.getElem?_set_ne hka]
    · have hn : out[k]? = none := List.getElem?_eq_none (by omega)
      have hn2 : (out.set (y * width + a) (pix y a))[k]? = none :=
        List.getElem?_eq_none (by simp; omega)
      simp [hk, hn, hn2]

theorem rowLoop_length (pix : Nat → Nat → Nat) (width y : Nat) (xs : List Nat) (out : List Nat) :
    (xs.foldl (fun out x => out.set (y * width + x) (pix y x)) out).length = out.length := by
  induction xs generalizing out with
  | nil => rfl
  | cons a t ih => rw [List.foldl_cons, ih, List.length_set]

/-- The whole loop nest over rows `ys` and columns `xs`. -/
theorem nestLoop_getElem? (pix : Nat → Nat → Nat) (width : Nat) (ys xs : List Nat)
    (hxs : ∀ x ∈ xs, x < width) (out : List Nat) (k : Nat) :
    (ys.foldl (fun out y => xs.foldl (fun out x => out.set (y * width + x) (pix y x)) out) out)[k]? =
      if k < out.length ∧ k / width ∈ ys ∧ k % width ∈ xs then some (pix (k / width) (k % width))
      else out[k]? := by
  induction ys generalizing out with
  | nil => simp
  | cons b t ih =>
    rw [List.foldl_cons, ih, rowLoop_length, rowLoop_getElem? pix width b xs hxs]
    simp only [List.mem_cons]
    by_cases hk : k < out.length
    · by_cases hx : k % width ∈ xs
      · by_cases ht : k / width ∈ t
        · simp [hk, hx, ht]
        · by_cases hb : k / width = b
          · simp [hk, hx, ht, hb]
          · simp [hk, hx, ht, hb]
      · simp [hx]
    · simp [hk]

theorem interiorLoop_length (pix : Nat → Nat → Nat) (width height : Nat) (out : List Nat) :
    (interiorLoop pix width height out).length = out.length := by
  unfold interiorLoop
  generalize List.range' 1 (height - 2) = ys
  induction ys generalizing out with
  | nil => rfl
  | cons b t ih => rw [List.foldl_cons, ih, rowLoop_length]

/-- Content of the output buffer after the loop nest. -/
theorem interiorLoop_getElem? (pix : Nat → Nat → Nat) (width height : Nat) (out : List Nat)
    (k : Nat) :
    (interiorLoop pix width height out)[k]? =
      if k < out.length ∧ (1 ≤ k / width ∧ k / width + 1 < height) ∧
          (1 ≤ k % width ∧ k % width + 1 < width)
      then some (pix (k / width) (k % width)) else out[k]? := by
  unfold interiorLoop
  rw [nestLoop_getElem? pix width _ _ (fun x hx => by
    rw [List.mem_range'_1] at hx; omega)]
  simp only [List.mem_range'_1]
  have e1 : (1 ≤ k / width ∧ k / width < 1 + (height - 2)) ↔
      (1 ≤ k / width ∧ k / width + 1 < height) := by omega
  have e2 : (1 ≤ k % width ∧ k % width < 1 + (width - 2)) ↔
      (1 ≤ k % width ∧ k % width + 1 < width) := by omega
  simp only [e1, e2]

/-! ## The accumulation loops -/

theorem toNat_index (width : Nat) (r c : Int) (hr : 0 ≤ r) (hc : 0 ≤ c) :
    (r * (width : Int) + c).toNat = r.toNat * width + c.toNat := by
  lift r to Nat using hr
  lift c to Nat using hc
  simp only [Int.toNat_ofNat]
  norm_cast

theorem readPixel_eq_sample (grid : List Nat) (width : Nat) (r c : Int)
    (hr : 0 ≤ r) (hc : 0 ≤ c) :
    readPixel grid (r * (width : Int) + c) = sample grid width r c := by
  unfold readPixel sample
  rw [if_pos ⟨hr, hc⟩, toNat_index width r c hr hc]

theorem sample_natCast (grid : List Nat) (width r c : Nat) :
    sample grid width (r : Int) (c : Int) = ((grid.getD (r * width + c) 0 : Nat) : Int) := by
  unfold sample
  simp

theorem sample_offset (grid : List Nat) (width y x : Nat) (hy : 1 ≤ y) (hx : 1 ≤ x) :
    (sample grid width (y + -1) (x + -1) = px grid width (y - 1) (x - 1) ∧
     sample grid width (y + -1) (x + 0) = px grid width (y - 1) x ∧
     sample grid width (y + -1) (x + 1) = px grid width (y - 1) (x + 1)) ∧
    (sample grid width (y + 0) (x + -1) = px grid width y (x - 1) ∧
     sample grid width (y + 0) (x + 0) = px grid width y x ∧
     sample grid width (y + 0) (x + 1) = px grid width y (x + 1)) ∧
    (sample grid width (y + 1) (x + -1) = px grid width (y + 1) (x - 1) ∧
     sample grid width (y + 1) (x + 0) = px grid width (y + 1) x ∧
     sample grid width (y + 1) (x + 1) = px grid width (y + 1) (x + 1)) := by
  obtain ⟨y', rfl⟩ : ∃ y', y = y' + 1 := ⟨y - 1, by omega⟩
  obtain ⟨x', rfl⟩ : ∃ x', x = x' + 1 := ⟨x - 1, by omega⟩
  have e1 : ((y' + 1 : Nat) : Int) + -1 = (y' : Nat) := by push_cast; ring
  have e2 : ((x' + 1 : Nat) : Int) + -1 = (x' : Nat) := by push_cast; ring
  have e3 : ((y' + 1 : Nat) : Int) + 1 = ((y' + 1 + 1 : Nat) : Int) := by push_cast; ring
  have e4 : ((x' + 1 : Nat) : Int) + 1 = ((x' + 1 + 1 : Nat) : Int) := by push_cast; ring
  simp only [e1, e2, e3, e4, add_zero, sample_natCast, px, Nat.add_sub_cancel]
  simp

theorem gxSpec_eq (grid : List Nat) (width y x : Nat) (hy : 1 ≤ y) (hx : 1 ≤ x) :
    gxSpec grid width y x =
      (px grid width (y - 1) (x + 1) + 2 * px grid width y (x + 1) + px grid width (y + 1) (x + 1))
      - (px grid width (y - 1) (x - 1) + 2 * px grid width y (x - 1)
          + px grid width (y + 1) (x - 1)) := by
  obtain ⟨⟨a1, a2, a3⟩, ⟨b1, b2, b3⟩, c1, c2, c3⟩ := sample_offset grid width y x hy hx
  unfold gxSpec
  simp only [Finset.sum_insert (show (-1 : Int) ∉ ({0, 1} : Finset Int) by decide),
    Finset.sum_insert (show (0 : Int) ∉ ({1} : Finset Int) by decide), Finset.sum_singleton,
    a1, a2, a3, b1, b2, b3, c1, c2, c3, coef, Hx]
  simp
  ring

theorem gySpec_eq (grid : List Nat) (width y x : Nat) (hy : 1 ≤ y) (hx : 1 ≤ x) :
    gySpec grid width y x =
      (px grid width (y + 1) (x - 1) + 2 * px grid width (y + 1) x + px grid width (y + 1) (x + 1))
      - (px grid width (y - 1) (x - 1) + 2 * px grid width (y - 1) x
          + px grid width (y - 1) (x + 1)) := by
  obtain ⟨⟨a1, a2, a3⟩, ⟨b1, b2, b3⟩, c1, c2, c3⟩ := sample_offset grid width y x hy hx
  unfold gySpec
  simp only [Finset.sum_insert (show (-1 : Int) ∉ ({0, 1} : Finset Int) by decide),
    Finset.sum_insert (show (0 : Int) ∉ ({1} : Finset Int) by decide), Finset.sum_singleton,
    a1, a2, a3, b1, b2, b3, c1, c2, c3, coef, Hy]
  simp
  ring

/-- The accumulation loops of `SobelEdgeDetection` compute the specification's
`gx` and `gy` at every pixel that has a row above and a column to the left. -/
theorem sobelAccum_eq (grayData : List Nat) (width y x : Nat) (hy : 1 ≤ y) (hx : 1 ≤ x) :
    sobelAccum grayData width y x = (gxSpec grayData width y x, gySpec grayData width y x) := by
  have h : ∀ j i : Int, -1 ≤ j → -1 ≤ i →
      readPixel grayData (((y : Int) + j) * (width : Int) + ((x : Int) + i)) =
        sample grayData width (y + j) (x + i) :=
    fun j i hj hi => readPixel_eq_sample _ _ _ _ (by omega) (by omega)
  obtain ⟨⟨a1, a2, a3⟩, ⟨b1, b2, b3⟩, c1, c2, c3⟩ := sample_offset grayData width y x hy hx
  rw [gxSpec_eq _ _ _ _ hy hx, gySpec_eq _ _ _ _ hy hx]
  simp only [sobelAccum, offsets, List.foldl_cons, List.foldl_nil,
    h (-1) (-1) (by decide) (by decide), h (-1) 0 (by decide) (by decide),
    h (-1) 1 (by decide) (by decide), h 0 (-1) (by decide) (by decide),
    h 0 0 (by decide) (by decide), h 0 1 (by decide) (by decide),
    h 1 (-1) (by decide) (by decide), h 1 0 (by decide) (by decide),
    h 1 1 (by decide) (by decide),
    a1, a2, a3, b1, b2, b3, c1, c2, c3, coef, sobel_x, sobel_y]
  simp
  constructor <;> ring

/-- The accumulation loops of the OpenACC variant compute the specification's
`gx` and the negation of its `gy`. -/
theorem accAccum_eq (in_data : List Nat) (width row col : Nat) (hy : 1 ≤ row) (hx : 1 ≤ col) :
    accAccum in_data width row col =
      (gxSpec in_data width row col, - gySpec in_data width row col) := by
  have h : ∀ j i : Int, -1 ≤ j → -1 ≤ i →
      readPixel in_data (((row : Int) + j) * (width : Int) + ((col : Int) + i)) =
        sample in_data width (row + j) (col + i) :=
    fun j i hj hi => readPixel_eq_sample _ _ _ _ (by omega) (by omega)
  obtain ⟨⟨a1, a2, a3⟩, ⟨b1, b2, b3⟩, c1, c2, c3⟩ := sample_offset in_data width row col hy hx
  rw [gxSpec_eq _ _ _ _ hy hx, gySpec_eq _ _ _ _ hy hx]
  simp only [accAccum, offsets, List.foldl_cons, List.foldl_nil,
    h (-1) (-1) (by decide) (by decide), h (-1) 0 (by decide) (by decide),
    h (-1) 1 (by decide) (by decide), h 0 (-1) (by decide) (by decide),
    h 0 0 (by decide) (by decide), h 0 1 (by decide) (by decide),
    h 1 (-1) (by decide) (by decide), h 1 0 (by decide) (by decide),
    h 1 1 (by decide) (by decide),
    a1, a2, a3, b1, b2, b3, c1, c2, c3, coef, dx, dy]
  simp
  constructor <;> ring

/-! ## Range of the accumulators -/

theorem px_bounds (grid : List Nat) (width r c : Nat) (hb : ∀ v ∈ grid, v ≤ 255) :
    0 ≤ px grid width r c ∧ px grid width r c ≤ 255 := by
  unfold px
  rw [List.getD_eq_getElem?_getD]
  cases h : grid[r * width + c]? with
  | none => simp
  | some v =>
    have := hb v (List.getElem?_mem h)
    simp only [Option.getD_some]
    omega

/-- With 8-bit samples the accumulators of `SobelEdgeDetection` stay within
`[-1020, 1020]`, so `gx * gx + gy * gy` fits an `int` with room to spare. -/
theorem sobelAccum_sq_le (grayData : List Nat) (width y x : Nat) (hy : 1 ≤ y) (hx : 1 ≤ x)
    (hb : ∀ v ∈ grayData, v ≤ 255) :
    (sobelAccum grayData width y x).1 * (sobelAccum grayData width y x).1 +
      (sobelAccum grayData width y x).2 * (sobelAccum grayData width y x).2 ≤ 2080800 := by
  rw [sobelAccum_eq _ _ _ _ hy hx, gxSpec_eq _ _ _ _ hy hx, gySpec_eq _ _ _ _ hy hx]
  have a1 := px_bounds grayData width (y - 1) (x - 1) hb
  have a2 := px_bounds grayData width (y - 1) x hb
  have a3 := px_bounds grayData width (y - 1) (x + 1) hb
  have b1 := px_bounds grayData width y (x - 1) hb
  have b3 := px_bounds grayData width y (x + 1) hb
  have c1 := px_bounds grayData width (y + 1) (x - 1) hb
  have c2 := px_bounds grayData width (y + 1) x hb
  have c3 := px_bounds grayData width (y + 1) (x + 1) hb
  simp only
  have hgx : -1020 ≤ px grayData width (y - 1) (x + 1) + 2 * px grayData width y (x + 1) +
      px grayData width (y + 1) (x + 1) - (px grayData width (y - 1) (x - 1) +
      2 * px grayData width y (x - 1) + px grayData width (y + 1) (x - 1)) ∧
      px grayData width (y - 1) (x + 1) + 2 * px grayData width y (x + 1) +
      px grayData width (y + 1) (x + 1) - (px grayData width (y - 1) (x - 1) +
      2 * px grayData width y (x - 1) + px grayData width (y + 1) (x - 1)) ≤ 1020 := by
    omega
  have hgy : -1020 ≤ px grayData width (y + 1) (x - 1) + 2 * px grayData width (y + 1) x +
      px grayData width (y + 1) (x + 1) - (px grayData width (y - 1) (x - 1) +
      2 * px grayData width (y - 1) x + px grayData width (y - 1) (x + 1)) ∧
      px grayData width (y + 1) (x - 1) + 2 * px grayData width (y + 1) x +
      px grayData width (y + 1) (x + 1) - (px grayData width (y - 1) (x - 1) +
      2 * px grayData width (y - 1) x + px grayData width (y - 1) (x + 1)) ≤ 1020 := by
    omega
  generalize px grayData width (y - 1) (x + 1) + 2 * px grayData width y (x + 1) +
      px grayData width (y + 1) (x + 1) - (px grayData width (y - 1) (x - 1) +
      2 * px grayData width y (x - 1) + px grayData width (y + 1) (x - 1)) = gx at hgx ⊢
  generalize px grayData width (y + 1) (x - 1) + 2 * px grayData width (y + 1) x +
      px grayData width (y + 1) (x + 1) - (px grayData width (y - 1) (x - 1) +
      2 * px grayData width (y - 1) x + px grayData width (y - 1) (x + 1)) = gy at hgy ⊢
  nlinarith [mul_nonneg (sub_nonneg.2 hgx.2) (sub_nonneg.2 (neg_le.1 hgx.1)),
    mul_nonneg (sub_nonneg.2 hgy.2) (sub_nonneg.2 (neg_le.1 hgy.1))]

/-! ## The output buffer of the two variants -/

theorem interiorLoop_interior (pix : Nat → Nat → Nat) (width height : Nat) (out : List Nat)
    (hlen : out.length = width * height) (y x : Nat)
    (hy1 : 1 ≤ y) (hy2 : y + 1 < height) (hx1 : 1 ≤ x) (hx2 : x + 1 < width) :
    (interiorLoop pix width height out)[y * width + x]? = some (pix y x) := by
  rw [interiorLoop_getElem?, index_div width y x (by omega), index_mod width y x (by omega),
    if_pos]
  exact ⟨by rw [hlen]; exact index_lt width height y x (by omega) (by omega),
    ⟨hy1, hy2⟩, hx1, hx2⟩

theorem interiorLoop_boundary (pix : Nat → Nat → Nat) (width height : Nat) (out : List Nat)
    (y x : Nat) (hx : x < width)
    (hb : ¬ (1 ≤ y ∧ y + 1 < height ∧ 1 ≤ x ∧ x + 1 < width)) :
    (interiorLoop pix width height out)[y * width + x]? = out[y * width + x]? := by
  rw [interiorLoop_getElem?, index_div width y x hx, index_mod width y x hx, if_neg]
  rintro ⟨-, ⟨h1, h2⟩, h3, h4⟩
  exact hb ⟨h1, h2, h3, h4⟩

theorem CreateNewImage_getElem? (heap : Nat → Nat) (width height k : Nat)
    (hk : k < width * height) :
    (CreateNewImage heap width height).data[k]? = some (heap k) := by
  simp [CreateNewImage, List.getElem?_range hk]

theorem CreateNewImage_length (heap : Nat → Nat) (width height : Nat) :
    (CreateNewImage heap width height).data.length = width * height := by
  simp [CreateNewImage]

theorem SobelEdgeDetection_interior (heap : Nat → Nat) (grayData : List Nat)
    (width height y x : Nat)
    (hy1 : 1 ≤ y) (hy2 : y + 1 < height) (hx1 : 1 ≤ x) (hx2 : x + 1 < width) :
    (SobelEdgeDetection heap grayData width height).pixel y x =
      some (sobelPixel grayData width y x) :=
  interiorLoop_interior _ width height _ (CreateNewImage_length heap width height) y x
    hy1 hy2 hx1 hx2

theorem SobelEdgeDetection_boundary (heap : Nat → Nat) (grayData : List Nat)
    (width height y x : Nat) (hy : y < height) (hx : x < width)
    (hb : ¬ (1 ≤ y ∧ y + 1 < height ∧ 1 ≤ x ∧ x + 1 < width)) :
    (SobelEdgeDetection heap grayData width height).pixel y x = some (heap (y * width + x)) :=
  (interiorLoop_boundary _ width height _ y x hx hb).trans
    (CreateNewImage_getElem? heap width height _ (index_lt width height y x hy hx))

theorem openacc_data_getElem? (device : Option (Nat → Nat)) (heap : Nat → Nat)
    (input_image : Image) (k : Nat) (hk : k < input_image.Width * input_image.Height) :
    (sobel_edge_detection_openacc device input_image
        (CreateNewImage heap input_image.Width input_image.Height)).data[k]? =
      (interiorLoop (accPixel input_image.data input_image.Width) input_image.Width
        input_image.Height
        ((List.range (input_image.Width * input_image.Height)).map (device.getD heap)))[k]? := by
  cases device with
  | none => rfl
  | some dev =>
    unfold sobel_edge_detection_openacc
    simp only [Option.getD_some]
    rw [List.getElem?_append_left]
    rw [interiorLoop_length, List.length_map, List.length_range]
    exact hk

theorem openacc_Width (device : Option (Nat → Nat)) (heap : Nat → Nat) (input_image : Image) :
    (sobel_edge_detection_openacc device input_image
        (CreateNewImage heap input_image.Width input_image.Height)).Width =
      input_image.Width := by
  cases device <;> rfl

theorem openacc_interior (device : Option (Nat → Nat)) (heap : Nat → Nat) (input_image : Image)
    (row col : Nat)
    (hy1 : 1 ≤ row) (hy2 : row + 1 < input_image.Height)
    (hx1 : 1 ≤ col) (hx2 : col + 1 < input_image.Width) :
    (sobel_edge_detection_openacc device input_image
        (CreateNewImage heap input_image.Width input_image.Height)).pixel row col =
      some (accPixel input_image.data input_image.Width row col) := by
  unfold Image.pixel
  rw [openacc_Width, openacc_data_getElem? device heap input_image _
    (index_lt _ _ row col (by omega) (by omega))]
  exact interiorLoop_interior _ input_image.Width input_image.Height _
    (by rw [List.length_map, List.length_range]) row col hy1 hy2 hx1 hx2

theorem openacc_boundary (device : Option (Nat → Nat)) (heap : Nat → Nat) (input_image : Image)
    (row col : Nat)
    (hy : row < input_image.Height) (hx : col < input_image.Width)
    (hb : ¬ (1 ≤ row ∧ row + 1 < input_image.Height ∧ 1 ≤ col ∧ col + 1 < input_image.Width)) :
    (sobel_edge_detection_openacc device input_image
        (CreateNewImage heap input_image.Width input_image.Height)).pixel row col =
      some (device.getD heap (row * input_image.Width + col)) := by
  unfold Image.pixel
  rw [openacc_Width, openacc_data_getElem? device heap input_image _
    (index_lt _ _ row col hy hx),
    interiorLoop_boundary _ input_image.Width input_image.Height _ row col hx hb,
    List.getElem?_map, List.getElem?_range (index_lt _ _ row col hy hx)]
  rfl

theorem sobelPixel_eq (grayData : List Nat) (width y x : Nat) (hy : 1 ≤ y) (hx : 1 ≤ x) :
    sobelPixel grayData width y x =
      if gxSpec grayData width y x ^ 2 + gySpec grayData width y x ^ 2 ≥ 100 ^ 2
      then 255 else 0 := by
  unfold sobelPixel
  simp only [sobelAccum_eq grayData width y x hy hx, THRESH]
  by_cases h : gxSpec grayData width y x * gxSpec grayData width y x +
      gySpec grayData width y x * gySpec grayData width y x < 100 * 100
  · rw [if_pos h, if_neg]
    simp only [ge_iff_le, not_le, pow_two]
    exact h
  · rw [if_neg h, if_pos]
    simp only [ge_iff_le, pow_two]
    exact not_lt.1 h

theorem accPixel_eq (in_data : List Nat) (width row col : Nat) (hy : 1 ≤ row) (hx : 1 ≤ col) :
    accPixel in_data width row col =
      min 255 (Nat.sqrt (gxSpec in_data width row col ^ 2 + gySpec in_data width row col ^ 2).toNat) := by
  unfold accPixel
  simp only [accAccum_eq in_data width row col hy hx]
  have e : gxSpec in_data width row col * gxSpec in_data width row col +
      -gySpec in_data width row col * -gySpec in_data width row col =
      gxSpec in_data width row col ^ 2 + gySpec in_data width row col ^ 2 := by ring
  rw [e]
  generalize Nat.sqrt (gxSpec in_data width row col ^ 2 + gySpec in_data width row col ^ 2).toNat = m
  split <;> omega

/-! ## Claims -/

/-- C1 (binary policy): at every interior pixel `(y, x)` the sample written by
`SobelEdgeDetection` is 255 if `gx² + gy² ≥ 100²` and 0 otherwise, `gx` and `gy`
being the 3x3 neighbourhood sums with the horizontal and vertical kernels. -/
theorem C1_binary_policy (heap : Nat → Nat) (grayData : List Nat) (width height y x : Nat)
    (hy1 : 1 ≤ y) (hy2 : y ≤ height - 2) (hx1 : 1 ≤ x) (hx2 : x ≤ width - 2) :
    (SobelEdgeDetection heap grayData width height).pixel y x =
      some (if gxSpec grayData width y x ^ 2 + gySpec grayData width y x ^ 2 ≥ 100 ^ 2
        then 255 else 0) := by
  rw [SobelEdgeDetection_interior heap grayData width height y x hy1 (by omega) hx1 (by omega),
    sobelPixel_eq grayData width y x hy1 hx1]


/-- Witness for C1 on a 3x3 grid with a bright right column. -/
theorem C1_binary_policy_witness :
    (1 ≤ 1 ∧ 1 ≤ 3 - 2) ∧
    (SobelEdgeDetection (fun _ => 9) [0, 0, 255, 0, 0, 255, 0, 0, 255] 3 3).pixel 1 1 =
      some (if gxSpec [0, 0, 255, 0, 0, 255, 0, 0, 255] 3 1 1 ^ 2 +
          gySpec [0, 0, 255, 0, 0, 255, 0, 0, 255] 3 1 1 ^ 2 ≥ 100 ^ 2 then 255 else 0) :=
  ⟨by decide, C1_binary_policy (fun _ => 9) [0, 0, 255, 0, 0, 255, 0, 0, 255] 3 3 1 1
    (by decide) (by decide) (by decide) (by decide)⟩

theorem sqrt_eight : Nat.sqrt 8 = 2 :=
  (Nat.eq_sqrt.2 ⟨by norm_num, by norm_num⟩).symm

theorem round_sqrt_eight : round (Real.sqrt (8 : ℝ)) = 3 := by
  rw [round_eq, Int.floor_eq_iff]
  constructor
  · have h : (5 / 2 : ℝ) ≤ Real.sqrt (8 : ℝ) := by
      apply Real.le_sqrt_of_sq_le
      norm_num
    push_cast
    linarith
  · have h : Real.sqrt (8 : ℝ) < 3 := by
      rw [Real.sqrt_lt' (by norm_num)]
      norm_num
    push_cast
    linarith

theorem natSqrt_toNat_eq_floor (n : Int) (hn : 0 ≤ n) :
    Nat.sqrt n.toNat = ⌊Real.sqrt (n : ℝ)⌋₊ := by
  lift n to Nat using hn
  rw [Int.toNat_ofNat, Int.cast_natCast, Real.nat_floor_real_sqrt_eq_nat_sqrt]

/-- C2 fails as stated: on a 3x3 grid with `gx² + gy² = 8` the OpenACC variant
stores `2 = ⌊√8⌋` (on the host and on an accelerator alike), while
`clamp(round(√8), 0, 255) = 3`. -/
theorem C2_counterexample :
    (sobel_edge_detection_openacc none ⟨[0, 1, 0, 0, 0, 1, 0, 0, 0], 3, 3⟩
        (CreateNewImage (fun _ => 0) 3 3)).pixel 1 1 = some 2 ∧
    (sobel_edge_detection_openacc (some (fun _ => 0)) ⟨[0, 1, 0, 0, 0, 1, 0, 0, 0], 3, 3⟩
        (CreateNewImage (fun _ => 0) 3 3)).pixel 1 1 = some 2 ∧
    gxSpec [0, 1, 0, 0, 0, 1, 0, 0, 0] 3 1 1 ^ 2 + gySpec [0, 1, 0, 0, 0, 1, 0, 0, 0] 3 1 1 ^ 2 = 8 ∧
    max 0 (min 255 (round (Real.sqrt ((gxSpec [0, 1, 0, 0, 0, 1, 0, 0, 0] 3 1 1 ^ 2 +
      gySpec [0, 1, 0, 0, 0, 1, 0, 0, 0] 3 1 1 ^ 2 : Int) : ℝ)))) = 3 := by
  have hg : gxSpec [0, 1, 0, 0, 0, 1, 0, 0, 0] 3 1 1 ^ 2 +
      gySpec [0, 1, 0, 0, 0, 1, 0, 0, 0] 3 1 1 ^ 2 = 8 := by decide
  have h : accAccum [0, 1, 0, 0, 0, 1, 0, 0, 0] 3 1 1 = (2, 2) := by decide
  have hp : accPixel [0, 1, 0, 0, 0, 1, 0, 0, 0] 3 1 1 = 2 := by
    simp [accPixel, h, sqrt_eight]
  refine ⟨?_, ?_, hg, ?_⟩
  · rw [← hp]
    exact openacc_interior none (fun _ => 0) ⟨[0, 1, 0, 0, 0, 1, 0, 0, 0], 3, 3⟩ 1 1
      (by decide) (by decide) (by decide) (by decide)
  · rw [← hp]
    exact openacc_interior (some (fun _ => 0)) (fun _ => 0)
      ⟨[0, 1, 0, 0, 0, 1, 0, 0, 0], 3, 3⟩ 1 1 (by decide) (by decide) (by decide) (by decide)
  · rw [hg]
    have e : ((8 : Int) : ℝ) = 8 := by norm_num
    rw [e, round_sqrt_eight]
    decide

/-- C2 (amended): at every interior pixel the OpenACC variant stores
`min(⌊√(gx² + gy²)⌋, 255)`: the square root is truncated, not rounded. This
holds on the host and on an accelerator alike. -/
theorem C2_magnitude_truncated (device : Option (Nat → Nat)) (heap : Nat → Nat)
    (input_image : Image) (row col : Nat)
    (hy1 : 1 ≤ row) (hy2 : row ≤ input_image.Height - 2)
    (hx1 : 1 ≤ col) (hx2 : col ≤ input_image.Width - 2) :
    (sobel_edge_detection_openacc device input_image
        (CreateNewImage heap input_image.Width input_image.Height)).pixel row col =
      some (min 255 ⌊Real.sqrt ((gxSpec input_image.data input_image.Width row col ^ 2 +
        gySpec input_image.data input_image.Width row col ^ 2 : Int) : ℝ)⌋₊) := by
  rw [openacc_interior device heap input_image row col hy1 (by omega) hx1 (by omega),
    accPixel_eq _ _ _ _ hy1 hx1, natSqrt_toNat_eq_floor _ (by positivity)]

/-- Witness for the amended C2 on the 3x3 grid of the counterexample. -/
theorem C2_magnitude_truncated_witness :
    (1 ≤ 1 ∧ 1 ≤ 3 - 2) ∧
    (sobel_edge_detection_openacc (some (fun _ => 5)) ⟨[0, 1, 0, 0, 0, 1, 0, 0, 0], 3, 3⟩
        (CreateNewImage (fun _ => 0) 3 3)).pixel 1 1 =
      some (min 255 ⌊Real.sqrt ((gxSpec [0, 1, 0, 0, 0, 1, 0, 0, 0] 3 1 1 ^ 2 +
        gySpec [0, 1, 0, 0, 0, 1, 0, 0, 0] 3 1 1 ^ 2 : Int) : ℝ)⌋₊) :=
  ⟨by decide, C2_magnitude_truncated (some (fun _ => 5)) (fun _ => 0)
    ⟨[0, 1, 0, 0, 0, 1, 0, 0, 0], 3, 3⟩ 1 1 (by decide) (by decide) (by decide) (by decide)⟩

/-- C3 fails as stated: when the fresh block holds 7 everywhere, the corner
sample of the output of `SobelEdgeDetection`, and of the OpenACC variant run on
the host, is 7; when the OpenACC variant runs on an accelerator whose device
array holds 7, the corner sample is 7 although the host block held 0. -/
theorem C3_counterexample :
    (SobelEdgeDetection (fun _ => 7) [0, 0, 0, 0, 0, 0, 0, 0, 0] 3 3).pixel 0 0 = some 7 ∧
    (sobel_edge_detection_openacc none ⟨[0, 0, 0, 0, 0, 0, 0, 0, 0], 3, 3⟩
        (CreateNewImage (fun _ => 7) 3 3)).pixel 0 0 = some 7 ∧
    (sobel_edge_detection_openacc (some (fun _ => 7)) ⟨[0, 0, 0, 0, 0, 0, 0, 0, 0], 3, 3⟩
        (CreateNewImage (fun _ => 0) 3 3)).pixel 0 0 = some 7 ∧
    (some 7 : Option Nat) ≠ some 0 := by
  refine ⟨?_, ?_, ?_, by decide⟩
  · exact SobelEdgeDetection_boundary (fun _ => 7) _ 3 3 0 0 (by decide) (by decide) (by decide)
  · exact openacc_boundary none (fun _ => 7) ⟨[0, 0, 0, 0, 0, 0, 0, 0, 0], 3, 3⟩ 0 0
      (by decide) (by decide) (by decide)
  · exact openacc_boundary (some (fun _ => 7)) (fun _ => 0)
      ⟨[0, 0, 0, 0, 0, 0, 0, 0, 0], 3, 3⟩ 0 0 (by decide) (by decide) (by decide)

/-- C3 (amended): for both variants, a sample on the top row, bottom row,
leftmost or rightmost column of the output is never written by the stencil and
never set to 0. After `SobelEdgeDetection`, and after the OpenACC variant run on
the host, it holds the content the fresh block from `CreateNewImage` had at that
offset; after the OpenACC variant run on a discrete-memory accelerator it holds
the content the device array of the `copyout` clause had there, the host content
being overwritten when the region ends. -/
theorem C3_boundary_unwritten (heapS heapA : Nat → Nat) (dev : Nat → Nat)
    (input_image : Image) (y x : Nat)
    (hy : y < input_image.Height) (hx : x < input_image.Width)
    (hb : y = 0 ∨ y = input_image.Height - 1 ∨ x = 0 ∨ x = input_image.Width - 1) :
    (SobelEdgeDetection heapS input_image.data input_image.Width input_image.Height).pixel y x =
      some (heapS (y * input_image.Width + x)) ∧
    (sobel_edge_detection_openacc none input_image
        (CreateNewImage heapA input_image.Width input_image.Height)).pixel y x =
      some (heapA (y * input_image.Width + x)) ∧
    (sobel_edge_detection_openacc (some dev) input_image
        (CreateNewImage heapA input_image.Width input_image.Height)).pixel y x =
      some (dev (y * input_image.Width + x)) :=
  ⟨SobelEdgeDetection_boundary heapS _ _ _ y x hy hx (by omega),
   openacc_boundary none heapA input_image y x hy hx (by omega),
   openacc_boundary (some dev) heapA input_image y x hy hx (by omega)⟩

/-- Witness for the amended C3 at the corner of a 3x3 image. -/
theorem C3_boundary_unwritten_witness :
    (0 < 3 ∧ (0 = 0 ∨ 0 = 3 - 1 ∨ 0 = 0 ∨ 0 = 3 - 1)) ∧
    ((SobelEdgeDetection (fun _ => 7) [1, 2, 3, 4, 5, 6, 7, 8, 9] 3 3).pixel 0 0 =
      some ((fun _ => 7) (0 * 3 + 0)) ∧
    (sobel_edge_detection_openacc none ⟨[1, 2, 3, 4, 5, 6, 7, 8, 9], 3, 3⟩
        (CreateNewImage (fun k => k + 2) 3 3)).pixel 0 0 = some ((fun k => k + 2) (0 * 3 + 0)) ∧
    (sobel_edge_detection_openacc (some (fun k => k + 4)) ⟨[1, 2, 3, 4, 5, 6, 7, 8, 9], 3, 3⟩
        (CreateNewImage (fun k => k + 2) 3 3)).pixel 0 0 = some ((fun k => k + 4) (0 * 3 + 0))) :=
  ⟨by decide, C3_boundary_unwritten (fun _ => 7) (fun k => k + 2) (fun k => k + 4)
    ⟨[1, 2, 3, 4, 5, 6, 7, 8, 9], 3, 3⟩ 0 0 (by decide) (by decide) (by decide)⟩

theorem px_uniform (width height c r k : Nat) (hr : r < height) (hk : k < width) :
    px (uniformImage width height c) width r k = c := by
  unfold px uniformImage
  rw [List.getD_eq_getElem?_getD, List.getElem?_replicate_of_lt (index_lt width height r k hr hk)]
  rfl

theorem px_step (width height s r k : Nat) (hr : r < height) (hk : k < width) :
    px (stepImage width height s) width r k = if k < s then 0 else 255 := by
  unfold px stepImage
  rw [List.getD_eq_getElem?_getD, List.getElem?_map,
    List.getElem?_range (index_lt width height r k hr hk)]
  simp only [Option.map_some', Option.getD_some, index_mod width r k hk]
  split <;> rfl

/-- C7 (flat image): on a uniform image the accumulators of `SobelEdgeDetection`
are `gx = 0` and `gy = 0` at every interior pixel, and the output there is 0. -/
theorem C7_uniform_zero (heap : Nat → Nat) (width height c y x : Nat)
    (hy1 : 1 ≤ y) (hy2 : y ≤ height - 2) (hx1 : 1 ≤ x) (hx2 : x ≤ width - 2) :
    sobelAccum (uniformImage width height c) width y x = (0, 0) ∧
    (SobelEdgeDetection heap (uniformImage width height c) width height).pixel y x = some 0 := by
  have hacc : sobelAccum (uniformImage width height c) width y x = (0, 0) := by
    rw [sobelAccum_eq _ _ _ _ hy1 hx1, gxSpec_eq _ _ _ _ hy1 hx1, gySpec_eq _ _ _ _ hy1 hx1]
    simp only [px_uniform width height c (y - 1) (x - 1) (by omega) (by omega),
      px_uniform width height c (y - 1) x (by omega) (by omega),
      px_uniform width height c (y - 1) (x + 1) (by omega) (by omega),
      px_uniform width height c y (x - 1) (by omega) (by omega),
      px_uniform width height c y (x + 1) (by omega) (by omega),
      px_uniform width height c (y + 1) (x - 1) (by omega) (by omega),
      px_uniform width height c (y + 1) x (by omega) (by omega),
      px_uniform width height c (y + 1) (x + 1) (by omega) (by omega)]
    simp
  refine ⟨hacc, ?_⟩
  rw [SobelEdgeDetection_interior heap _ width height y x hy1 (by omega) hx1 (by omega)]
  simp [sobelPixel, hacc, THRESH]

/-- Witness for C7 on the 4x4 image of constant 100. -/
theorem C7_uniform_zero_witness :
    (1 ≤ 2 ∧ 2 ≤ 4 - 2 ∧ 1 ≤ 1 ∧ 1 ≤ 4 - 2) ∧
    (sobelAccum (uniformImage 4 4 100) 4 2 1 = (0, 0) ∧
    (SobelEdgeDetection (fun _ => 5) (uniformImage 4 4 100) 4 4).pixel 2 1 = some 0) :=
  ⟨by decide, C7_uniform_zero (fun _ => 5) 4 4 100 2 1
    (by decide) (by decide) (by decide) (by decide)⟩

theorem step_accum (width height s y x : Nat)
    (hy1 : 1 ≤ y) (hy2 : y ≤ height - 2) (hx1 : 1 ≤ x) (hx2 : x ≤ width - 2)
    (h1 : x + 1 ≠ s) (h2 : x ≠ s) :
    gxSpec (stepImage width height s) width y x = 0 ∧
    gySpec (stepImage width height s) width y x = 0 := by
  rw [gxSpec_eq _ _ _ _ hy1 hx1, gySpec_eq _ _ _ _ hy1 hx1]
  simp only [px_step width height s (y - 1) (x - 1) (by omega) (by omega),
    px_step width height s (y - 1) x (by omega) (by omega),
    px_step width height s (y - 1) (x + 1) (by omega) (by omega),
    px_step width height s y (x - 1) (by omega) (by omega),
    px_step width height s y (x + 1) (by omega) (by omega),
    px_step width height s (y + 1) (x - 1) (by omega) (by omega),
    px_step width height s (y + 1) x (by omega) (by omega),
    px_step width height s (y + 1) (x + 1) (by omega) (by omega)]
  by_cases ha : x + 1 < s
  · have hb : x - 1 < s := by omega
    have hc : x < s := by omega
    simp [ha, hb, hc]
  · have hb : ¬ x - 1 < s := by omega
    have hc : ¬ x < s := by omega
    simp [ha, hb, hc]

/-- C8 (vertical step edge): for the image that is 0 left of column `s` and 255
from column `s` on, both variants give output 0 at every interior pixel whose
column `x` satisfies neither `x + 1 = s` nor `x = s`; a non-zero response can only occur in the two
columns adjacent to the step. -/
theorem C8_step_edge (device : Option (Nat → Nat)) (heapS heapA : Nat → Nat)
    (width height s y x : Nat)
    (hy1 : 1 ≤ y) (hy2 : y ≤ height - 2) (hx1 : 1 ≤ x) (hx2 : x ≤ width - 2) :
    (∃ v a, (SobelEdgeDetection heapS (stepImage width height s) width height).pixel y x = some v ∧
      (sobel_edge_detection_openacc device ⟨stepImage width height s, width, height⟩
        (CreateNewImage heapA width height)).pixel y x = some a ∧
      (v ≠ 0 → x + 1 = s ∨ x = s) ∧ (a ≠ 0 → x + 1 = s ∨ x = s)) ∧
    (x + 1 ≠ s → x ≠ s →
      (SobelEdgeDetection heapS (stepImage width height s) width height).pixel y x = some 0 ∧
      (sobel_edge_detection_openacc device ⟨stepImage width height s, width, height⟩
        (CreateNewImage heapA width height)).pixel y x = some 0) := by
  have hS := SobelEdgeDetection_interior heapS (stepImage width height s) width height y x
    hy1 (by omega) hx1 (by omega)
  have hA := openacc_interior device heapA ⟨stepImage width height s, width, height⟩ y x
    hy1 (by simp only; omega) hx1 (by simp only; omega)
  have hz : x + 1 ≠ s → x ≠ s →
      sobelPixel (stepImage width height s) width y x = 0 ∧
      accPixel (stepImage width height s) width y x = 0 := by
    intro h1 h2
    obtain ⟨gx0, gy0⟩ := step_accum width height s y x hy1 hy2 hx1 hx2 h1 h2
    rw [sobelPixel_eq _ _ _ _ hy1 hx1, accPixel_eq _ _ _ _ hy1 hx1, gx0, gy0]
    simp
  refine ⟨⟨_, _, hS, hA, ?_, ?_⟩, ?_⟩
  · intro hv
    by_contra hne
    exact hv (hz (fun h => hne (Or.inl h)) (fun h => hne (Or.inr h))).1
  · intro ha
    by_contra hne
    exact ha (hz (fun h => hne (Or.inl h)) (fun h => hne (Or.inr h))).2
  · intro h1 h2
    rw [hS, hA]
    simp only at hz ⊢
    rw [(hz h1 h2).1, (hz h1 h2).2]
    exact ⟨rfl, rfl⟩

/-- Witness for C8 on a 6x3 step image with the step at column 2; the pixel in
column 4 is away from the step. -/
theorem C8_step_edge_witness :
    (1 ≤ 1 ∧ 1 ≤ 3 - 2 ∧ 1 ≤ 4 ∧ 4 ≤ 6 - 2) ∧
    ((∃ v a, (SobelEdgeDetection (fun _ => 1) (stepImage 6 3 2) 6 3).pixel 1 4 = some v ∧
      (sobel_edge_detection_openacc (some (fun _ => 3)) ⟨stepImage 6 3 2, 6, 3⟩
        (CreateNewImage (fun _ => 1) 6 3)).pixel 1 4 = some a ∧
      (v ≠ 0 → 4 + 1 = 2 ∨ 4 = 2) ∧ (a ≠ 0 → 4 + 1 = 2 ∨ 4 = 2)) ∧
    (4 + 1 ≠ 2 → 4 ≠ 2 →
      (SobelEdgeDetection (fun _ => 1) (stepImage 6 3 2) 6 3).pixel 1 4 = some 0 ∧
      (sobel_edge_detection_openacc (some (fun _ => 3)) ⟨stepImage 6 3 2, 6, 3⟩
        (CreateNewImage (fun _ => 1) 6 3)).pixel 1 4 = some 0)) :=
  ⟨by decide, C8_step_edge (some (fun _ => 3)) (fun _ => 1) (fun _ => 1) 6 3 2 1 4
    (by decide) (by decide) (by decide) (by decide)⟩

/-- C9 (the variants agree up to thresholding): at every interior pixel the
binary variant stores 255 exactly when the OpenACC variant stores a value of at
least 100, and 0 otherwise; the negated vertical kernel leaves the squared
magnitude unchanged. -/
theorem C9_variants_agree (device : Option (Nat → Nat)) (heapS heapA : Nat → Nat)
    (input_image : Image) (y x : Nat)
    (hy1 : 1 ≤ y) (hy2 : y ≤ input_image.Height - 2)
    (hx1 : 1 ≤ x) (hx2 : x ≤ input_image.Width - 2) :
    ∃ b m,
      (SobelEdgeDetection heapS input_image.data input_image.Width input_image.Height).pixel y x =
        some b ∧
      (sobel_edge_detection_openacc device input_image
        (CreateNewImage heapA input_image.Width input_image.Height)).pixel y x = some m ∧
      (b = 255 ↔ 100 ≤ m) ∧ (b = 0 ↔ m < 100) ∧
      (accAccum input_image.data input_image.Width y x).1 ^ 2 +
        (accAccum input_image.data input_image.Width y x).2 ^ 2 =
      (sobelAccum input_image.data input_image.Width y x).1 ^ 2 +
        (sobelAccum input_image.data input_image.Width y x).2 ^ 2 := by
  refine ⟨_, _, SobelEdgeDetection_interior heapS _ _ _ y x hy1 (by omega) hx1 (by omega),
    openacc_interior device heapA input_image y x hy1 (by omega) hx1 (by omega), ?_, ?_, ?_⟩
  · rw [sobelPixel_eq _ _ _ _ hy1 hx1, accPixel_eq _ _ _ _ hy1 hx1]
    generalize hn : gxSpec input_image.data input_image.Width y x ^ 2 +
      gySpec input_image.data input_image.Width y x ^ 2 = n
    have hn0 : 0 ≤ n := by rw [← hn]; positivity
    have key : 100 ≤ Nat.sqrt n.toNat ↔ (100 : Int) ^ 2 ≤ n := by
      rw [Nat.le_sqrt]
      omega
    by_cases h : (100 : Int) ^ 2 ≤ n
    · have := key.2 h
      simp only [ge_iff_le, h, if_true, true_iff]
      omega
    · have := mt key.1 h
      simp only [ge_iff_le, h, if_false]
      omega
  · rw [sobelPixel_eq _ _ _ _ hy1 hx1, accPixel_eq _ _ _ _ hy1 hx1]
    generalize hn : gxSpec input_image.data input_image.Width y x ^ 2 +
      gySpec input_image.data input_image.Width y x ^ 2 = n
    have hn0 : 0 ≤ n := by rw [← hn]; positivity
    have key : 100 ≤ Nat.sqrt n.toNat ↔ (100 : Int) ^ 2 ≤ n := by
      rw [Nat.le_sqrt]
      omega
    by_cases h : (100 : Int) ^ 2 ≤ n
    · have := key.2 h
      simp only [ge_iff_le, h, if_true]
      omega
    · have := mt key.1 h
      simp only [ge_iff_le, h, if_false, true_iff]
      omega
  · rw [accAccum_eq _ _ _ _ hy1 hx1, sobelAccum_eq _ _ _ _ hy1 hx1]
    simp

/-- Witness for C9 at the centre of a 3x3 image. -/
theorem C9_variants_agree_witness :
    (1 ≤ 1 ∧ 1 ≤ 3 - 2) ∧
    ∃ b m,
      (SobelEdgeDetection (fun _ => 0) [0, 0, 255, 0, 0, 255, 0, 0, 255] 3 3).pixel 1 1 = some b ∧
      (sobel_edge_detection_openacc (some (fun _ => 3)) ⟨[0, 0, 255, 0, 0, 255, 0, 0, 255], 3, 3⟩
        (CreateNewImage (fun _ => 0) 3 3)).pixel 1 1 = some m ∧
      (b = 255 ↔ 100 ≤ m) ∧ (b = 0 ↔ m < 100) ∧
      (accAccum [0, 0, 255, 0, 0, 255, 0, 0, 255] 3 1 1).1 ^ 2 +
        (accAccum [0, 0, 255, 0, 0, 255, 0, 0, 255] 3 1 1).2 ^ 2 =
      (sobelAccum [0, 0, 255, 0, 0, 255, 0, 0, 255] 3 1 1).1 ^ 2 +
        (sobelAccum [0, 0, 255, 0, 0, 255, 0, 0, 255] 3 1 1).2 ^ 2 :=
  ⟨by decide, C9_variants_agree (some (fun _ => 3)) (fun _ => 0) (fun _ => 0)
    ⟨[0, 0, 255, 0, 0, 255, 0, 0, 255], 3, 3⟩ 1 1 (by decide) (by decide) (by decide) (by decide)⟩


/-! ## Scatter and gather -/

theorem scatter_getElem? (buf : List Nat) (cnt rank t : Nat) (ht : t < cnt) :
    (MPI_Scatter buf cnt rank)[t]? = buf[rank * cnt + t]? := by
  unfold MPI_Scatter
  rw [List.getElem?_take, if_pos ht, List.getElem?_drop]

theorem scatter_getD (buf : List Nat) (cnt rank t : Nat) (ht : t < cnt) :
    (MPI_Scatter buf cnt rank).getD t 0 = buf.getD (rank * cnt + t) 0 := by
  rw [List.getD_eq_getElem?_getD, List.getD_eq_getElem?_getD, scatter_getElem? buf cnt rank t ht]

/-- Content of the receive buffer after the gather. -/
theorem gather_getElem? (bufs : List (List Nat)) (cnt : Nat) (recv : List Nat) (k : Nat) :
    (MPI_Gather bufs cnt recv)[k]? =
      if k < recv.length ∧ k / cnt < bufs.length ∧ k % cnt < cnt
      then some ((bufs.getD (k / cnt) []).getD (k % cnt) 0) else recv[k]? := by
  unfold MPI_Gather
  rw [nestLoop_getElem? (fun rank t => (bufs.getD rank []).getD t 0) cnt _ _
    (fun x hx => List.mem_range.1 hx)]
  simp only [List.mem_range]

/-- The rows `ownsRow` assigns to worker `i` are the rows of the block the
scatter delivers to rank `i`: row `r` of the source is local row
`r - i * chunk_height` there. -/
theorem scatter_ownsRow (data : List Nat) (width height W i r c : Nat)
    (hown : ownsRow height W i r) (hc : c < width) :
    (MPI_Scatter data (chunk_size width height W) i)[(r - i * chunk_height height W) * width + c]? =
      data[r * width + c]? := by
  unfold ownsRow at hown
  unfold chunk_size
  generalize chunk_height height W = ch at hown ⊢
  obtain ⟨m, rfl⟩ : ∃ m, r = i * ch + m := ⟨r - i * ch, by omega⟩
  have hm : m < ch := by
    have e : (i + 1) * ch = i * ch + ch := by ring
    omega
  rw [Nat.add_sub_cancel_left, scatter_getElem? data (width * ch) i (m * width + c)
    (index_lt width ch m c hm hc)]
  congr 1
  ring

theorem mul_chunk_size (width height W : Nat) (hdiv : W ∣ height) :
    W * chunk_size width height W = width * height := by
  unfold chunk_size chunk_height
  rw [Nat.mul_left_comm, Nat.mul_div_cancel' hdiv]

/-- C6 (decompose/aggregate round trip): when `W ≥ 1` divides the height,
scattering a `width * height` buffer into `W` blocks of `chunk_size` samples and
gathering those blocks in rank order reproduces the buffer sample for sample. -/
theorem C6_scatter_gather_roundtrip (data recv : List Nat) (width height W : Nat)
    (hW : 1 ≤ W) (hdiv : W ∣ height)
    (hlen : data.length = width * height) (hrecv : recv.length = width * height) :
    MPI_Gather ((List.range W).map (MPI_Scatter data (chunk_size width height W)))
      (chunk_size width height W) recv = data := by
  have _ := hW
  have hmul := mul_chunk_size width height W hdiv
  generalize chunk_size width height W = cs at hmul
  apply List.ext_getElem?
  intro k
  rw [gather_getElem?]
  simp only [List.length_map, List.length_range, hrecv]
  by_cases hk : k < width * height
  · have hcs : 0 < cs := by
      rcases Nat.eq_zero_or_pos cs with h | h
      · rw [h, Nat.mul_zero] at hmul
        omega
      · exact h
    have hq : k / cs < W := by
      rw [Nat.div_lt_iff_lt_mul hcs, hmul]
      exact hk
    have ht : k % cs < cs := Nat.mod_lt _ hcs
    rw [if_pos ⟨hk, hq, ht⟩]
    have hb : ((List.range W).map (MPI_Scatter data cs)).getD (k / cs) [] =
        MPI_Scatter data cs (k / cs) := by
      rw [List.getD_eq_getElem?_getD, List.getElem?_map, List.getElem?_range hq]
      rfl
    have hidx : k / cs * cs + k % cs = k := by
      rw [Nat.mul_comm]
      exact Nat.div_add_mod k cs
    rw [hb, scatter_getD data cs (k / cs) (k % cs) ht, hidx, List.getD_eq_getElem?_getD,
      List.getElem?_eq_getElem (by omega)]
    rfl
  · rw [if_neg (fun h => hk h.1), List.getElem?_eq_none (by omega),
      List.getElem?_eq_none (by omega)]

/-- Witness for C6: a 2x4 buffer split over 2 workers. -/
theorem C6_scatter_gather_roundtrip_witness :
    (1 ≤ 2 ∧ 2 ∣ 4 ∧ [1, 2, 3, 4, 5, 6, 7, 8].length = 2 * 4 ∧
      [0, 0, 0, 0, 0, 0, 0, 0].length = 2 * 4) ∧
    MPI_Gather ((List.range 2).map (MPI_Scatter [1, 2, 3, 4, 5, 6, 7, 8] (chunk_size 2 4 2)))
      (chunk_size 2 4 2) [0, 0, 0, 0, 0, 0, 0, 0] = [1, 2, 3, 4, 5, 6, 7, 8] :=
  ⟨by decide, C6_scatter_gather_roundtrip [1, 2, 3, 4, 5, 6, 7, 8] [0, 0, 0, 0, 0, 0, 0, 0] 2 4 2
    (by decide) (by decide) (by decide) (by decide)⟩

/-- C5 fails as stated: with `height = 5` and `W = 2` (so `1 ≤ W ≤ height`) the
two ranges are rows `[0, 2)` and `[2, 4)`; row 4 belongs to no worker. -/
theorem C5_counterexample :
    (1 ≤ 2 ∧ 2 ≤ 5) ∧ 4 < 5 ∧ ¬ ∃ i, i < 2 ∧ ownsRow 5 2 i 4 := by
  decide

/-- C5 (amended): for every height and every `W ≥ 1` the `W` row ranges are
pairwise disjoint, in increasing order, and their union is
`[0, W * (height / W))` with no gap; that is all of `[0, height)` exactly when
`W` divides the height. -/
theorem C5_row_ranges (height W : Nat) (hW : 1 ≤ W) :
    (∀ i j r, i < j → ¬ (ownsRow height W i r ∧ ownsRow height W j r)) ∧
    (∀ i j r r', i < j → ownsRow height W i r → ownsRow height W j r' → r < r') ∧
    (∀ r, (∃ i, i < W ∧ ownsRow height W i r) ↔ r < W * chunk_height height W) ∧
    (W * chunk_height height W = height ↔ W ∣ height) := by
  unfold ownsRow
  generalize hch : chunk_height height W = ch
  have hstep : ∀ i j : Nat, i < j → (i + 1) * ch ≤ j * ch :=
    fun i j hij => Nat.mul_le_mul_right ch hij
  refine ⟨?_, ?_, ?_, ?_⟩
  · rintro i j r hij ⟨⟨-, h2⟩, h3, -⟩
    have := hstep i j hij
    omega
  · rintro i j r r' hij ⟨-, h2⟩ ⟨h3, -⟩
    have := hstep i j hij
    omega
  · intro r
    constructor
    · rintro ⟨i, hi, -, h2⟩
      have := hstep i W hi
      omega
    · intro hr
      have hpos : 0 < ch := by
        rcases Nat.eq_zero_or_pos ch with h | h
        · rw [h, Nat.mul_zero] at hr
          omega
        · exact h
      refine ⟨r / ch, ?_, Nat.div_mul_le_self r ch, ?_⟩
      · rw [Nat.div_lt_iff_lt_mul hpos]
        exact hr
      · rw [Nat.mul_comm]
        exact Nat.lt_mul_div_succ r hpos
  · rw [← hch]
    unfold chunk_height
    have _ := hW
    constructor
    · intro h
      exact Dvd.intro _ h
    · intro h
      exact Nat.mul_div_cancel' h

/-- Witness for the amended C5 with `height = 5`, `W = 2`. -/
theorem C5_row_ranges_witness :
    1 ≤ 2 ∧
    ((∀ i j r, i < j → ¬ (ownsRow 5 2 i r ∧ ownsRow 5 2 j r)) ∧
    (∀ i j r r', i < j → ownsRow 5 2 i r → ownsRow 5 2 j r' → r < r') ∧
    (∀ r, (∃ i, i < 2 ∧ ownsRow 5 2 i r) ↔ r < 2 * chunk_height 5 2) ∧
    (2 * chunk_height 5 2 = 5 ↔ 2 ∣ 5)) :=
  ⟨by decide, C5_row_ranges 5 2 (by decide)⟩


/-! ## The distributed pipeline -/

theorem workerEdges_length (input_image : Image) (W : Nat) (heap : Nat → Nat → Nat) :
    ((workerEdges input_image W heap).map Image.data).length = W := by
  simp [workerEdges]

theorem workerEdges_getD (input_image : Image) (W : Nat) (heap : Nat → Nat → Nat) (q : Nat)
    (hq : q < W) :
    ((workerEdges input_image W heap).map Image.data).getD q [] =
      (SobelEdgeDetection (heap q)
        (MPI_Scatter input_image.data (chunk_size input_image.Width input_image.Height W) q)
        input_image.Width (chunk_height input_image.Height W)).data := by
  unfold workerEdges
  rw [List.getD_eq_getElem?_getD, List.getElem?_map, List.getElem?_map, List.getElem?_range hq]
  rfl

theorem SobelEdgeDetection_length (heap : Nat → Nat) (grayData : List Nat) (width height : Nat) :
    (SobelEdgeDetection heap grayData width height).data.length = width * height := by
  unfold SobelEdgeDetection
  simp only
  rw [interiorLoop_length, CreateNewImage_length]

theorem getD_of_lt (l : List Nat) (k : Nat) (hk : k < l.length) :
    some (l.getD k 0) = l[k]? := by
  rw [List.getD_eq_getElem?_getD, List.getElem?_eq_getElem hk]
  rfl

/-- The gathered sample at global row `q * chunk + m` is the sample of worker
`q`'s edge map at its local row `m`, written or not. -/
theorem gatheredImage_pixel (input_image : Image) (W : Nat) (heap : Nat → Nat → Nat)
    (rootHeap : Nat → Nat) (q m x : Nat) (hq : q < W) (hdiv : W ∣ input_image.Height)
    (hm : m < chunk_height input_image.Height W) (hx : x < input_image.Width) :
    (gatheredImage input_image W heap rootHeap).pixel
        (q * chunk_height input_image.Height W + m) x =
      (SobelEdgeDetection (heap q) (MPI_Scatter input_image.data
        (chunk_size input_image.Width input_image.Height W) q) input_image.Width
        (chunk_height input_image.Height W)).pixel m x := by
  have hmul := mul_chunk_size input_image.Width input_image.Height W hdiv
  have hb := workerEdges_getD input_image W heap q hq
  have hlen := SobelEdgeDetection_length (heap q)
    (MPI_Scatter input_image.data (chunk_size input_image.Width input_image.Height W) q)
    input_image.Width (chunk_height input_image.Height W)
  unfold Image.pixel
  have hw : (SobelEdgeDetection (heap q)
      (MPI_Scatter input_image.data (chunk_size input_image.Width input_image.Height W) q)
      input_image.Width (chunk_height input_image.Height W)).Width = input_image.Width := rfl
  have hgw : (gatheredImage input_image W heap rootHeap).Width = input_image.Width := rfl
  rw [hw, hgw]
  unfold gatheredImage
  simp only
  unfold chunk_size at hmul hb hlen ⊢
  generalize chunk_height input_image.Height W = ch at *
  have ht : m * input_image.Width + x < input_image.Width * ch :=
    index_lt input_image.Width ch m x hm hx
  have hk : (q * ch + m) * input_image.Width + x =
      q * (input_image.Width * ch) + (m * input_image.Width + x) := by ring
  have hlt : q * (input_image.Width * ch) + (m * input_image.Width + x) <
      input_image.Width * input_image.Height := by
    rw [← hmul]
    calc q * (input_image.Width * ch) + (m * input_image.Width + x)
        < q * (input_image.Width * ch) + input_image.Width * ch := by omega
      _ = (q + 1) * (input_image.Width * ch) := by ring
      _ ≤ W * (input_image.Width * ch) := Nat.mul_le_mul_right _ hq
  rw [hk, gather_getElem?, workerEdges_length, index_div _ q _ ht, index_mod _ q _ ht,
    if_pos ⟨by simpa using hlt, hq, ht⟩, hb]
  exact getD_of_lt _ _ (by rw [hlen]; exact ht)

/-- A sample of the block received by rank `q` is the sample of the source image
`q * chunk` rows further down. -/
theorem px_local (data : List Nat) (width ch q m c : Nat) (hm : m < ch) (hc : c < width) :
    px (MPI_Scatter data (width * ch) q) width m c = px data width (q * ch + m) c := by
  unfold px
  rw [scatter_getD data (width * ch) q (m * width + c) (index_lt width ch m c hm hc)]
  congr 2
  ring

/-- Away from the first and last row of its block, a worker accumulates the same
`(gx, gy)` as the single-partition run does at the corresponding global row. -/
theorem sobelAccum_local (data : List Nat) (width ch q m x : Nat)
    (hm1 : 1 ≤ m) (hm2 : m + 1 < ch) (hx1 : 1 ≤ x) (hx2 : x + 1 < width) :
    sobelAccum (MPI_Scatter data (width * ch) q) width m x =
      sobelAccum data width (q * ch + m) x := by
  have e1 : q * ch + m - 1 = q * ch + (m - 1) := by omega
  have e2 : q * ch + m + 1 = q * ch + (m + 1) := by omega
  rw [sobelAccum_eq _ _ _ _ hm1 hx1, sobelAccum_eq _ _ _ _ (by omega : 1 ≤ q * ch + m) hx1,
    gxSpec_eq _ _ _ _ hm1 hx1, gySpec_eq _ _ _ _ hm1 hx1,
    gxSpec_eq _ _ _ _ (by omega : 1 ≤ q * ch + m) hx1,
    gySpec_eq _ _ _ _ (by omega : 1 ≤ q * ch + m) hx1, e1, e2]
  simp only [px_local data width ch q (m - 1) (x - 1) (by omega) (by omega),
    px_local data width ch q (m - 1) x (by omega) (by omega),
    px_local data width ch q (m - 1) (x + 1) (by omega) (by omega),
    px_local data width ch q m (x - 1) (by omega) (by omega),
    px_local data width ch q m (x + 1) (by omega) (by omega),
    px_local data width ch q (m + 1) (x - 1) (by omega) (by omega),
    px_local data width ch q (m + 1) x (by omega) (by omega),
    px_local data width ch q (m + 1) (x + 1) (by omega) (by omega)]

/-- Away from the seams and the side columns, the blockwise result and the
single-partition result are the same thresholded sample. -/
theorem gatheredImage_interior (input_image : Image) (W : Nat)
    (heap : Nat → Nat → Nat) (rootHeap heapS : Nat → Nat) (r x : Nat)
    (hdiv : W ∣ input_image.Height) (hr : r < input_image.Height)
    (hr0 : r % chunk_height input_image.Height W ≠ 0)
    (hr1 : r % chunk_height input_image.Height W ≠ chunk_height input_image.Height W - 1)
    (hx1 : 1 ≤ x) (hx2 : x ≤ input_image.Width - 2) :
    (gatheredImage input_image W heap rootHeap).pixel r x =
        (SobelEdgeDetection heapS input_image.data input_image.Width input_image.Height).pixel
          r x ∧
    (gatheredImage input_image W heap rootHeap).pixel r x =
      some (sobelPixel input_image.data input_image.Width r x) := by
  have hmul : W * chunk_height input_image.Height W = input_image.Height :=
    Nat.mul_div_cancel' hdiv
  have hdm : chunk_height input_image.Height W * (r / chunk_height input_image.Height W) +
      r % chunk_height input_image.Height W = r := Nat.div_add_mod r _
  have hpos : 0 < chunk_height input_image.Height W := by
    rcases Nat.eq_zero_or_pos (chunk_height input_image.Height W) with h | h
    · rw [h, Nat.mul_zero] at hmul
      omega
    · exact h
  have hmlt : r % chunk_height input_image.Height W < chunk_height input_image.Height W :=
    Nat.mod_lt _ hpos
  have hq : r / chunk_height input_image.Height W < W := by
    rw [Nat.div_lt_iff_lt_mul hpos, hmul]
    exact hr
  have hD := gatheredImage_pixel input_image W heap rootHeap
    (r / chunk_height input_image.Height W) (r % chunk_height input_image.Height W) x
    hq hdiv hmlt (by omega)
  rw [SobelEdgeDetection_interior _ _ _ _ _ _ (by omega) (by omega) hx1 (by omega)] at hD
  have hacc := sobelAccum_local input_image.data input_image.Width
    (chunk_height input_image.Height W) (r / chunk_height input_image.Height W)
    (r % chunk_height input_image.Height W) x (by omega) (by omega) hx1 (by omega)
  have hrow : r / chunk_height input_image.Height W * chunk_height input_image.Height W +
      r % chunk_height input_image.Height W = r := by
    rw [Nat.mul_comm]
    exact hdm
  rw [hrow] at hD hacc
  have hpix : sobelPixel (MPI_Scatter input_image.data
      (chunk_size input_image.Width input_image.Height W)
      (r / chunk_height input_image.Height W)) input_image.Width
      (r % chunk_height input_image.Height W) x =
      sobelPixel input_image.data input_image.Width r x := by
    unfold sobelPixel chunk_size
    rw [hacc]
  rw [hpix] at hD
  have hr_lo : 1 ≤ r := by
    rcases Nat.eq_zero_or_pos r with h | h
    · rw [h, Nat.zero_mod] at hr0
      exact absurd rfl hr0
    · exact h
  have hr_hi : r + 1 < input_image.Height := by
    have h1 : r / chunk_height input_image.Height W + 1 ≤ W := hq
    have h2 := Nat.mul_le_mul_left (chunk_height input_image.Height W) h1
    rw [Nat.mul_comm _ W, hmul, Nat.mul_add, Nat.mul_one] at h2
    omega
  have hS := SobelEdgeDetection_interior heapS input_image.data input_image.Width
    input_image.Height r x hr_lo hr_hi hx1 (by omega)
  exact ⟨hD.trans hS.symm, hD⟩

/-- C10 fails as stated: for a 3x6 image over two workers (chunk height 3), row 1
is neither the first nor the last row of its block, yet at column 0 the
blockwise result holds the content of worker 0's fresh block (here 1) and the
single-partition result that of its own fresh block (here 2): neither run
writes the side columns. -/
theorem C10_counterexample :
    (1 ≤ 2 ∧ 2 ∣ 6 ∧ 1 % chunk_height 6 2 ≠ 0 ∧ 1 % chunk_height 6 2 ≠ chunk_height 6 2 - 1) ∧
    (gatheredImage ⟨List.replicate 18 0, 3, 6⟩ 2 (fun _ _ => 1) (fun _ => 0)).pixel 1 0 =
      some 1 ∧
    (SobelEdgeDetection (fun _ => 2) (List.replicate 18 0) 3 6).pixel 1 0 = some 2 ∧
    (gatheredImage ⟨List.replicate 18 0, 3, 6⟩ 2 (fun _ _ => 1) (fun _ => 0)).pixel 1 0 ≠
      (SobelEdgeDetection (fun _ => 2) (List.replicate 18 0) 3 6).pixel 1 0 := by
  decide

/-- C10 (amended): when `W ≥ 1` divides the height and `chunk = height / W`, the
blockwise result `D` (`SobelEdgeDetection` applied to each block of `chunk`
rows, the results stored in rank order) agrees with `SobelEdgeDetection` on the
whole image at every row `r` with `r mod chunk` neither `0` nor `chunk - 1` and
every column `1 ≤ x ≤ width - 2`. The two can differ only on the first and last
row of a block and on the leftmost and rightmost column. With one worker `D` is
the image `main` saves. -/
theorem C10_distributed_matches_single (input_image : Image) (W : Nat)
    (heap : Nat → Nat → Nat) (rootHeap heapS : Nat → Nat) (r x : Nat)
    (hW : 1 ≤ W) (hdiv : W ∣ input_image.Height) (hr : r < input_image.Height)
    (hx : x < input_image.Width) :
    (r % chunk_height input_image.Height W ≠ 0 →
      r % chunk_height input_image.Height W ≠ chunk_height input_image.Height W - 1 →
      1 ≤ x → x ≤ input_image.Width - 2 →
      (gatheredImage input_image W heap rootHeap).pixel r x =
        (SobelEdgeDetection heapS input_image.data input_image.Width input_image.Height).pixel
          r x ∧
      (gatheredImage input_image W heap rootHeap).pixel r x =
        some (sobelPixel input_image.data input_image.Width r x)) ∧
    ((gatheredImage input_image W heap rootHeap).pixel r x ≠
        (SobelEdgeDetection heapS input_image.data input_image.Width input_image.Height).pixel
          r x →
      r % chunk_height input_image.Height W = 0 ∨
      r % chunk_height input_image.Height W = chunk_height input_image.Height W - 1 ∨
      x = 0 ∨ x = input_image.Width - 1) ∧
    (W = 1 → main input_image W true heap rootHeap =
      .ok (gatheredImage input_image W heap rootHeap)) := by
  have _ := hW
  refine ⟨?_, ?_, ?_⟩
  · intro hr0 hr1 hx1 hx2
    exact gatheredImage_interior input_image W heap rootHeap heapS r x hdiv hr hr0 hr1 hx1 hx2
  · intro hne
    by_contra hcon
    have h0 : r % chunk_height input_image.Height W ≠ 0 := fun h => hcon (Or.inl h)
    have h1 : r % chunk_height input_image.Height W ≠ chunk_height input_image.Height W - 1 :=
      fun h => hcon (Or.inr (Or.inl h))
    have h2 : x ≠ 0 := fun h => hcon (Or.inr (Or.inr (Or.inl h)))
    have h3 : x ≠ input_image.Width - 1 := fun h => hcon (Or.inr (Or.inr (Or.inr h)))
    exact hne (gatheredImage_interior input_image W heap rootHeap heapS r x hdiv hr h0 h1
      (by omega) (by omega)).1
  · intro h1
    simp [main, h1]

/-- Witness for the amended C10: a 3x6 step image over two workers (chunk height
3); global row 4 is the middle row of the second block and the sample at
column 1, next to the step, is 255 in both results. -/
theorem C10_distributed_matches_single_witness :
    (1 ≤ 2 ∧ 2 ∣ 6 ∧ 4 < 6 ∧ 1 < 3) ∧
    ((4 % chunk_height 6 2 ≠ 0 → 4 % chunk_height 6 2 ≠ chunk_height 6 2 - 1 →
      1 ≤ 1 → 1 ≤ 3 - 2 →
      (gatheredImage ⟨stepImage 3 6 2, 3, 6⟩ 2 (fun q k => q + k + 1) (fun k => 2 * k)).pixel
          4 1 =
        (SobelEdgeDetection (fun _ => 9) (stepImage 3 6 2) 3 6).pixel 4 1 ∧
      (gatheredImage ⟨stepImage 3 6 2, 3, 6⟩ 2 (fun q k => q + k + 1) (fun k => 2 * k)).pixel
          4 1 =
        some (sobelPixel (stepImage 3 6 2) 3 4 1)) ∧
    ((gatheredImage ⟨stepImage 3 6 2, 3, 6⟩ 2 (fun q k => q + k + 1) (fun k => 2 * k)).pixel
          4 1 ≠
        (SobelEdgeDetection (fun _ => 9) (stepImage 3 6 2) 3 6).pixel 4 1 →
      4 % chunk_height 6 2 = 0 ∨ 4 % chunk_height 6 2 = chunk_height 6 2 - 1 ∨
      1 = 0 ∨ 1 = 3 - 1) ∧
    (2 = 1 → main ⟨stepImage 3 6 2, 3, 6⟩ 2 true (fun q k => q + k + 1) (fun k => 2 * k) =
      .ok (gatheredImage ⟨stepImage 3 6 2, 3, 6⟩ 2 (fun q k => q + k + 1) (fun k => 2 * k)))) :=
  ⟨by decide, C10_distributed_matches_single ⟨stepImage 3 6 2, 3, 6⟩ 2
    (fun q k => q + k + 1) (fun k => 2 * k) (fun _ => 9) 4 1
    (by decide) (by decide) (by decide) (by decide)⟩

end Sobel
